import Mathlib

/-!
# auto-diff: expression trees with hand-written chain-rule derivatives

A shallow embedding of `src/main.cpp`.  The class hierarchy rooted at
`AutoDiffFunction` becomes one inductive type with a constructor per
subclass; the virtual methods `forward` and `backward` become two recursive
functions over it.

The C++ code computes in `float`.  The embedding is written once, generically
over a carrier `α` that supplies the arithmetic the program uses
(`+ - * /`, the `int → float` conversion, and the `<cmath>` functions), and is
then read at two carriers: `ℝ` (float arithmetic idealised as exact real
arithmetic, with no rounding and no overflow) and `XFloat` (the same, with the
IEEE 754 special values added).  The C++ `int` of the exponent is an `Int`
inside `[INT_MIN, INT_MAX]`, and the one `int` subtraction of the program,
`m_exp - 1`, is taken modulo `2^32`.
-/

namespace AutoDiff

/-- The `<cmath>` functions called by the program: `std::sin`, `std::cos`,
`std::exp`, `std::log`, `std::sqrt`. -/
class CMath (α : Type) where
  sin : α → α
  cos : α → α
  exp : α → α
  log : α → α
  sqrt : α → α

/-- Real numbers as the idealised carrier. -/
noncomputable instance : CMath ℝ where
  sin := Real.sin
  cos := Real.cos
  exp := Real.exp
  log := Real.log
  sqrt := Real.sqrt

/-- The node classes of `main.cpp` (lines 11-190), one constructor per
subclass of `AutoDiffFunction`, carrying that class's private fields.  Child
pointers become subtrees. -/
inductive AutoDiffFunction (α : Type) where
  | IdentityFunction : AutoDiffFunction α
  | SinFunction (m_arg : AutoDiffFunction α) : AutoDiffFunction α
  | PolynomialFunction (m_arg : AutoDiffFunction α) (m_exp : Int) : AutoDiffFunction α
  | SqrtFunction (m_arg : AutoDiffFunction α) : AutoDiffFunction α
  | LogFunction (m_arg : AutoDiffFunction α) : AutoDiffFunction α
  | AddFunction (m_func1 m_func2 : AutoDiffFunction α) : AutoDiffFunction α
  | DivFunction (m_func1 m_func2 : AutoDiffFunction α) : AutoDiffFunction α
  | ExpFunction (m_arg : AutoDiffFunction α) : AutoDiffFunction α
  | ConstFunction (m_const : α) : AutoDiffFunction α

/-- The least value of the C++ type `int` (32 bits, two's complement). -/
def INT_MIN : Int := -2147483648

/-- The greatest value of the C++ type `int`. -/
def INT_MAX : Int := 2147483647

/-- The `int` an exact integer result is stored as: reduction modulo `2^32`
into `[INT_MIN, INT_MAX]`.  Results inside the range are unchanged.  For one
outside it the C++ expression overflows and has no defined result; the
two's-complement value is taken here to keep the function total, and the
theorems that depend on the number of loop iterations assume `INT_MIN < m_exp`. -/
def wrapInt (n : Int) : Int := (n + 2147483648) % 4294967296 - 2147483648

/-- Every `m_exp` in the tree is a value of the type `int`. -/
def IntExponents {α : Type} : AutoDiffFunction α → Prop
  | .IdentityFunction => True
  | .SinFunction m_arg => IntExponents m_arg
  | .PolynomialFunction m_arg m_exp => (INT_MIN ≤ m_exp ∧ m_exp ≤ INT_MAX) ∧ IntExponents m_arg
  | .SqrtFunction m_arg => IntExponents m_arg
  | .LogFunction m_arg => IntExponents m_arg
  | .AddFunction m_func1 m_func2 => IntExponents m_func1 ∧ IntExponents m_func2
  | .DivFunction m_func1 m_func2 => IntExponents m_func1 ∧ IntExponents m_func2
  | .ExpFunction m_arg => IntExponents m_arg
  | .ConstFunction _ => True

section Embedding

variable {α : Type} [Add α] [Sub α] [Mul α] [Div α] [IntCast α] [CMath α]

/-- The loop `for (int i = ...; i < bound; i++) val_tmp *= val;` of
`PolynomialFunction`, entered with the current values of `i` and `val_tmp`;
it returns the final `val_tmp`.  The counter stays below `bound`, itself an
`int`, so `i++` never overflows and is the exact successor. -/
def mulLoop (val : α) (bound : Int) (i : Int) (val_tmp : α) : α :=
  if i < bound then mulLoop val bound (i + 1) (val_tmp * val) else val_tmp
termination_by (bound - i).toNat
decreasing_by omega

/-- The virtual method `forward(float x)`, by node class. -/
def forward : AutoDiffFunction α → α → α
  | .IdentityFunction, x => x
  | .SinFunction m_arg, x => CMath.sin (forward m_arg x)
  | .PolynomialFunction m_arg m_exp, x =>
      let val := forward m_arg x
      mulLoop val m_exp 0 ((1 : Int) : α)
  | .SqrtFunction m_arg, x => CMath.sqrt (forward m_arg x)
  | .LogFunction m_arg, x => CMath.log (forward m_arg x)
  | .AddFunction m_func1 m_func2, x => forward m_func1 x + forward m_func2 x
  | .DivFunction m_func1 m_func2, x => forward m_func1 x / forward m_func2 x
  | .ExpFunction m_arg, x => CMath.exp (forward m_arg x)
  | .ConstFunction m_const, _ => m_const

/-- The virtual method `backward(float x)`, by node class.  Float literals
`1.0f`, `2.0f` and the `int` literal `0` are the conversions of the integers
they denote.  The loop bound `m_exp - 1` of `PolynomialFunction` is `int`
arithmetic, hence `wrapInt`: it is the exact difference except at
`m_exp = INT_MIN`. -/
def backward : AutoDiffFunction α → α → α
  | .IdentityFunction, _ => ((1 : Int) : α)
  | .SinFunction m_arg, x =>
      let eval := CMath.cos (forward m_arg x)
      eval * backward m_arg x
  | .PolynomialFunction m_arg m_exp, x =>
      let val := forward m_arg x
      let val_tmp := mulLoop val (wrapInt (m_exp - 1)) 0 ((1 : Int) : α)
      (m_exp : α) * val_tmp * backward m_arg x
  | .SqrtFunction m_arg, x =>
      (((1 : Int) : α) / (((2 : Int) : α) * forward (.SqrtFunction m_arg) x)) * backward m_arg x
  | .LogFunction m_arg, x =>
      (((1 : Int) : α) / forward m_arg x) * backward m_arg x
  | .AddFunction m_func1 m_func2, x => backward m_func1 x + backward m_func2 x
  | .DivFunction m_func1 m_func2, x =>
      (backward m_func1 x * forward m_func2 x - forward m_func1 x * backward m_func2 x)
        / (forward m_func2 x * forward m_func2 x)
  | .ExpFunction m_arg, x => forward (.ExpFunction m_arg) x * backward m_arg x
  | .ConstFunction _, _ => ((0 : Int) : α)

end Embedding

/-! The static builder class `FunctionFactory` (lines 192-205). -/

namespace FunctionFactory

variable {α : Type}

def add (f1 f2 : AutoDiffFunction α) : AutoDiffFunction α := .AddFunction f1 f2
def div (f1 f2 : AutoDiffFunction α) : AutoDiffFunction α := .DivFunction f1 f2
def log (arg : AutoDiffFunction α) : AutoDiffFunction α := .LogFunction arg
def sin (arg : AutoDiffFunction α) : AutoDiffFunction α := .SinFunction arg
def sqrt (arg : AutoDiffFunction α) : AutoDiffFunction α := .SqrtFunction arg
def pow (arg : AutoDiffFunction α) (n : Int) : AutoDiffFunction α := .PolynomialFunction arg n
def exp (arg : AutoDiffFunction α) : AutoDiffFunction α := .ExpFunction arg
def x : AutoDiffFunction α := .IdentityFunction
def c (c : α) : AutoDiffFunction α := .ConstFunction c

end FunctionFactory

/-- The demo expression `func` built in `main` (lines 209-214); its constant
is the float literal `2.0f`. -/
def func {α : Type} [IntCast α] : AutoDiffFunction α :=
  FunctionFactory.sin
    (FunctionFactory.div
      (FunctionFactory.sqrt
        (FunctionFactory.add (FunctionFactory.exp FunctionFactory.x)
          (FunctionFactory.pow FunctionFactory.x 2)))
      (FunctionFactory.c ((2 : Int) : α)))

/-! ## Floats with their special values

The second carrier keeps the special values of IEEE 754 arithmetic, which the
program never intercepts: the two infinities, not-a-number and the negative
zero.  Finite results are still exact reals (no rounding, no overflow, no
underflow), so this carrier differs from `ℝ` only where an operation leaves
the finite numbers or produces a signed zero. -/

/-- A `float`: a finite real (`fin 0` is `+0`), `-0`, `+∞`, `-∞` or NaN. -/
inductive XFloat where
  | fin (r : ℝ) : XFloat
  | negZero : XFloat
  | posInf : XFloat
  | negInf : XFloat
  | nan : XFloat

namespace XFloat

noncomputable section

/-- Not-a-number test (`std::isnan`). -/
def isNaN : XFloat → Bool
  | nan => true
  | _ => false

/-- Infinity test (`std::isinf`). -/
def isInf : XFloat → Bool
  | posInf => true
  | negInf => true
  | _ => false

/-- Finiteness test (`std::isfinite`): neither infinite nor NaN. -/
def isFinite : XFloat → Bool
  | fin _ => true
  | negZero => true
  | _ => false

/-- Comparison with zero as `==` makes it: both zeros are zero. -/
def isZero : XFloat → Bool
  | fin r => decide (r = 0)
  | negZero => true
  | _ => false

/-- The sign bit (`std::signbit`) of a value that is not NaN. -/
def sign : XFloat → Bool
  | fin r => decide (r < 0)
  | negZero => true
  | posInf => false
  | negInf => true
  | nan => false

/-- The real value of a finite float; `0` for the others. -/
def val : XFloat → ℝ
  | fin r => r
  | _ => 0

/-- The zero of sign bit `s`. -/
def zero (s : Bool) : XFloat := if s then negZero else fin 0

/-- The infinity of sign bit `s`. -/
def inf (s : Bool) : XFloat := if s then negInf else posInf

/-- The float for an exact product or quotient `r`: a zero result takes the
sign bit `s` computed from the operands. -/
def signed (s : Bool) (r : ℝ) : XFloat := if r = 0 then zero s else fin r

/-- Unary minus: flips the sign bit. -/
def neg : XFloat → XFloat
  | fin r => if r = 0 then negZero else fin (-r)
  | negZero => fin 0
  | posInf => negInf
  | negInf => posInf
  | nan => nan

/-- IEEE addition (round to nearest): `∞ + -∞` is NaN, and an exact zero sum
is `+0` unless both operands are `-0`. -/
def add : XFloat → XFloat → XFloat
  | nan, _ => nan
  | _, nan => nan
  | posInf, negInf => nan
  | negInf, posInf => nan
  | posInf, _ => posInf
  | _, posInf => posInf
  | negInf, _ => negInf
  | _, negInf => negInf
  | negZero, negZero => negZero
  | a, b => fin (a.val + b.val)

/-- IEEE subtraction: `a - b` is `a + (-b)`. -/
def sub (a b : XFloat) : XFloat := add a (neg b)

/-- IEEE multiplication: `0 * ∞` is NaN; the sign is the exclusive or of the
operands' signs. -/
def mul (a b : XFloat) : XFloat :=
  if a.isNaN || b.isNaN then nan
  else if a.isInf || b.isInf then
    (if a.isZero || b.isZero then nan else inf (xor a.sign b.sign))
  else signed (xor a.sign b.sign) (a.val * b.val)

/-- IEEE division: `∞ / ∞` and `0 / 0` are NaN, a non-zero value over zero is
an infinity; the sign is the exclusive or of the operands' signs. -/
def div (a b : XFloat) : XFloat :=
  if a.isNaN || b.isNaN then nan
  else if a.isInf then (if b.isInf then nan else inf (xor a.sign b.sign))
  else if b.isInf then zero (xor a.sign b.sign)
  else if b.isZero then (if a.isZero then nan else inf (xor a.sign b.sign))
  else signed (xor a.sign b.sign) (a.val / b.val)

/-- `std::sin`: `sin(±0) = ±0`, `sin(±∞)` is NaN. -/
def sin : XFloat → XFloat
  | fin r => fin (Real.sin r)
  | negZero => negZero
  | _ => nan

/-- `std::cos`: `cos(±0) = 1`, `cos(±∞)` is NaN. -/
def cos : XFloat → XFloat
  | fin r => fin (Real.cos r)
  | negZero => fin 1
  | _ => nan

/-- `std::exp`: `exp(-∞) = +0`, `exp(+∞) = +∞`. -/
def exp : XFloat → XFloat
  | fin r => fin (Real.exp r)
  | negZero => fin 1
  | posInf => posInf
  | negInf => fin 0
  | nan => nan

/-- `std::log`: `log(±0) = -∞`, `log` of a negative value is NaN,
`log(+∞) = +∞`. -/
def log : XFloat → XFloat
  | fin r => if r < 0 then nan else if r = 0 then negInf else fin (Real.log r)
  | negZero => negInf
  | posInf => posInf
  | negInf => nan
  | nan => nan

/-- `std::sqrt`: `sqrt(-0) = -0`, `sqrt` of a negative value is NaN,
`sqrt(+∞) = +∞`. -/
def sqrt : XFloat → XFloat
  | fin r => if r < 0 then nan else fin (Real.sqrt r)
  | negZero => negZero
  | posInf => posInf
  | negInf => nan
  | nan => nan

instance : Add XFloat := ⟨add⟩
instance : Sub XFloat := ⟨sub⟩
instance : Mul XFloat := ⟨mul⟩
instance : Div XFloat := ⟨div⟩

/-- The `int → float` conversion (exact in this carrier). -/
instance : IntCast XFloat := ⟨fun n => fin (n : ℝ)⟩

instance : CMath XFloat where
  sin := sin
  cos := cos
  exp := exp
  log := log
  sqrt := sqrt

end

end XFloat

/-- The domain of a tree at a point, over the reals: every `PolynomialFunction`
exponent is non-negative, every `SqrtFunction` and `LogFunction` argument
evaluates to a positive value, and every `DivFunction` denominator evaluates
to a non-zero value. -/
def InDomain : AutoDiffFunction ℝ → ℝ → Prop
  | .IdentityFunction, _ => True
  | .SinFunction m_arg, x => InDomain m_arg x
  | .PolynomialFunction m_arg m_exp, x => 0 ≤ m_exp ∧ InDomain m_arg x
  | .SqrtFunction m_arg, x => 0 < forward m_arg x ∧ InDomain m_arg x
  | .LogFunction m_arg, x => 0 < forward m_arg x ∧ InDomain m_arg x
  | .AddFunction m_func1 m_func2, x => InDomain m_func1 x ∧ InDomain m_func2 x
  | .DivFunction m_func1 m_func2, x =>
      forward m_func2 x ≠ 0 ∧ InDomain m_func1 x ∧ InDomain m_func2 x
  | .ExpFunction m_arg, x => InDomain m_arg x
  | .ConstFunction _, _ => True

/-- Whether the tree contains an `IdentityFunction` leaf. -/
def hasIdentity {α : Type} : AutoDiffFunction α → Bool
  | .IdentityFunction => true
  | .SinFunction m_arg => hasIdentity m_arg
  | .PolynomialFunction m_arg _ => hasIdentity m_arg
  | .SqrtFunction m_arg => hasIdentity m_arg
  | .LogFunction m_arg => hasIdentity m_arg
  | .AddFunction m_func1 m_func2 => hasIdentity m_func1 || hasIdentity m_func2
  | .DivFunction m_func1 m_func2 => hasIdentity m_func1 || hasIdentity m_func2
  | .ExpFunction m_arg => hasIdentity m_arg
  | .ConstFunction _ => false

/-- The domain of a tree at a point without the condition on exponents:
every `SqrtFunction` and `LogFunction` argument evaluates to a positive value
and every `DivFunction` denominator to a non-zero value. -/
def ArgsInDomain : AutoDiffFunction ℝ → ℝ → Prop
  | .IdentityFunction, _ => True
  | .SinFunction m_arg, x => ArgsInDomain m_arg x
  | .PolynomialFunction m_arg _, x => ArgsInDomain m_arg x
  | .SqrtFunction m_arg, x => 0 < forward m_arg x ∧ ArgsInDomain m_arg x
  | .LogFunction m_arg, x => 0 < forward m_arg x ∧ ArgsInDomain m_arg x
  | .AddFunction m_func1 m_func2, x => ArgsInDomain m_func1 x ∧ ArgsInDomain m_func2 x
  | .DivFunction m_func1 m_func2, x =>
      forward m_func2 x ≠ 0 ∧ ArgsInDomain m_func1 x ∧ ArgsInDomain m_func2 x
  | .ExpFunction m_arg, x => ArgsInDomain m_arg x
  | .ConstFunction _, _ => True

/-! ## The loop and the calls, step by step

`mulLoop`, `forward` and `backward` above are total functions.  The
definitions below run the same code with a step budget and with the object
state passed along, so that termination and the absence of field writes are
statements about the program rather than properties of the notation. -/

section Stepwise

variable {α : Type} [Add α] [Sub α] [Mul α] [Div α] [IntCast α] [CMath α]

/-- One pass through `for (...; i < bound; i++) val_tmp *= val;` from the
state `(i, val_tmp)`: the next state, or `none` when the guard fails and the
loop is left. -/
def loopStep (val : α) (bound : Int) (s : Int × α) : Option (Int × α) :=
  if s.1 < bound then some (s.1 + 1, s.2 * val) else none

/-- The loop run for at most `fuel` guard tests: the final `val_tmp` when the
loop is left within the budget, `none` when the budget runs out first. -/
def loopRun (val : α) (bound : Int) : Nat → Int × α → Option α
  | 0, _ => none
  | fuel + 1, s =>
      match loopStep val bound s with
      | none => some s.2
      | some s' => loopRun val bound fuel s'

/-- Nesting depth of a tree: the longest chain of child pointers. -/
def depth : AutoDiffFunction α → Nat
  | .IdentityFunction => 0
  | .SinFunction m_arg => depth m_arg + 1
  | .PolynomialFunction m_arg _ => depth m_arg + 1
  | .SqrtFunction m_arg => depth m_arg + 1
  | .LogFunction m_arg => depth m_arg + 1
  | .AddFunction m_func1 m_func2 => max (depth m_func1) (depth m_func2) + 1
  | .DivFunction m_func1 m_func2 => max (depth m_func1) (depth m_func2) + 1
  | .ExpFunction m_arg => depth m_arg + 1
  | .ConstFunction _ => 0

/-- The method `forward` as a state transformer: a call on the object `t`
returns the result together with the object as the call leaves it (each child
is replaced by what the call on it returned).  `fuel` bounds the depth of
nested calls; `none` means the budget ran out.  The methods of `main.cpp`
assign to locals only, so no case changes a field itself. -/
def forwardS : Nat → AutoDiffFunction α → α → Option (α × AutoDiffFunction α)
  | 0, _, _ => none
  | _ + 1, .IdentityFunction, x => some (x, .IdentityFunction)
  | fuel + 1, .SinFunction m_arg, x =>
      (forwardS fuel m_arg x).bind fun r => some (CMath.sin r.1, .SinFunction r.2)
  | fuel + 1, .PolynomialFunction m_arg m_exp, x =>
      (forwardS fuel m_arg x).bind fun r =>
        some (mulLoop r.1 m_exp 0 ((1 : Int) : α), .PolynomialFunction r.2 m_exp)
  | fuel + 1, .SqrtFunction m_arg, x =>
      (forwardS fuel m_arg x).bind fun r => some (CMath.sqrt r.1, .SqrtFunction r.2)
  | fuel + 1, .LogFunction m_arg, x =>
      (forwardS fuel m_arg x).bind fun r => some (CMath.log r.1, .LogFunction r.2)
  | fuel + 1, .AddFunction m_func1 m_func2, x =>
      (forwardS fuel m_func1 x).bind fun r1 =>
      (forwardS fuel m_func2 x).bind fun r2 =>
        some (r1.1 + r2.1, .AddFunction r1.2 r2.2)
  | fuel + 1, .DivFunction m_func1 m_func2, x =>
      (forwardS fuel m_func1 x).bind fun r1 =>
      (forwardS fuel m_func2 x).bind fun r2 =>
        some (r1.1 / r2.1, .DivFunction r1.2 r2.2)
  | fuel + 1, .ExpFunction m_arg, x =>
      (forwardS fuel m_arg x).bind fun r => some (CMath.exp r.1, .ExpFunction r.2)
  | _ + 1, .ConstFunction m_const, _ => some (m_const, .ConstFunction m_const)

/-- The method `backward` as a state transformer, as `forwardS`.  The calls
inside one expression are taken left to right, each on the child as the
previous call left it.  `SqrtFunction` and `ExpFunction` call their own
`forward`, whose body is the single call `m_arg->forward(x)`. -/
def backwardS : Nat → AutoDiffFunction α → α → Option (α × AutoDiffFunction α)
  | 0, _, _ => none
  | _ + 1, .IdentityFunction, _ => some (((1 : Int) : α), .IdentityFunction)
  | fuel + 1, .SinFunction m_arg, x =>
      (forwardS fuel m_arg x).bind fun r1 =>
      (backwardS fuel r1.2 x).bind fun r2 =>
        some (CMath.cos r1.1 * r2.1, .SinFunction r2.2)
  | fuel + 1, .PolynomialFunction m_arg m_exp, x =>
      (forwardS fuel m_arg x).bind fun r1 =>
      (backwardS fuel r1.2 x).bind fun r2 =>
        some ((m_exp : α) * mulLoop r1.1 (wrapInt (m_exp - 1)) 0 ((1 : Int) : α) * r2.1,
          .PolynomialFunction r2.2 m_exp)
  | fuel + 1, .SqrtFunction m_arg, x =>
      (forwardS fuel m_arg x).bind fun r1 =>
      (backwardS fuel r1.2 x).bind fun r2 =>
        some ((((1 : Int) : α) / (((2 : Int) : α) * CMath.sqrt r1.1)) * r2.1,
          .SqrtFunction r2.2)
  | fuel + 1, .LogFunction m_arg, x =>
      (forwardS fuel m_arg x).bind fun r1 =>
      (backwardS fuel r1.2 x).bind fun r2 =>
        some ((((1 : Int) : α) / r1.1) * r2.1, .LogFunction r2.2)
  | fuel + 1, .AddFunction m_func1 m_func2, x =>
      (backwardS fuel m_func1 x).bind fun r1 =>
      (backwardS fuel m_func2 x).bind fun r2 =>
        some (r1.1 + r2.1, .AddFunction r1.2 r2.2)
  | fuel + 1, .DivFunction m_func1 m_func2, x =>
      (backwardS fuel m_func1 x).bind fun b1 =>
      (forwardS fuel m_func2 x).bind fun f2 =>
      (forwardS fuel b1.2 x).bind fun f1 =>
      (backwardS fuel f2.2 x).bind fun b2 =>
      (forwardS fuel b2.2 x).bind fun f2' =>
      (forwardS fuel f2'.2 x).bind fun f2'' =>
        some ((b1.1 * f2.1 - f1.1 * b2.1) / (f2'.1 * f2''.1), .DivFunction f1.2 f2''.2)
  | fuel + 1, .ExpFunction m_arg, x =>
      (forwardS fuel m_arg x).bind fun r1 =>
      (backwardS fuel r1.2 x).bind fun r2 =>
        some (CMath.exp r1.1 * r2.1, .ExpFunction r2.2)
  | _ + 1, .ConstFunction m_const, _ => some (((0 : Int) : α), .ConstFunction m_const)

/-- A call made by the driver on the root of the tree: `forward(x)`
(evaluate) or `backward(x)` (derivative). -/
inductive Call (α : Type) where
  | evaluate (x : α) : Call α
  | derivative (x : α) : Call α

/-- What a call on the tree `t` returns, by the methods read as functions. -/
def Call.result (t : AutoDiffFunction α) : Call α → α
  | .evaluate x => forward t x
  | .derivative x => backward t x

/-- A sequence of calls on one tree, each made on the tree as the previous
call left it: the list of results and the final tree. -/
def runCalls (fuel : Nat) : AutoDiffFunction α → List (Call α) →
    Option (List α × AutoDiffFunction α)
  | t, [] => some ([], t)
  | t, .evaluate x :: cs =>
      (forwardS fuel t x).bind fun r =>
      (runCalls fuel r.2 cs).bind fun rs => some (r.1 :: rs.1, rs.2)
  | t, .derivative x :: cs =>
      (backwardS fuel t x).bind fun r =>
      (runCalls fuel r.2 cs).bind fun rs => some (r.1 :: rs.1, rs.2)

end Stepwise

/-! ## The program over the reals -/

section RealCarrier

@[simp] theorem cmath_sin_real (x : ℝ) : CMath.sin x = Real.sin x := rfl
@[simp] theorem cmath_cos_real (x : ℝ) : CMath.cos x = Real.cos x := rfl
@[simp] theorem cmath_exp_real (x : ℝ) : CMath.exp x = Real.exp x := rfl
@[simp] theorem cmath_log_real (x : ℝ) : CMath.log x = Real.log x := rfl
@[simp] theorem cmath_sqrt_real (x : ℝ) : CMath.sqrt x = Real.sqrt x := rfl

/-- One step of the multiplication loop, over any carrier. -/
theorem mulLoop_step {α : Type} [Mul α] (val : α) (bound i : Int) (val_tmp : α)
    (h : i < bound) : mulLoop val bound i val_tmp = mulLoop val bound (i + 1) (val_tmp * val) := by
  rw [mulLoop, if_pos h]

/-- The multiplication loop exits at once when its guard is false. -/
theorem mulLoop_done {α : Type} [Mul α] (val : α) (bound i : Int) (val_tmp : α)
    (h : ¬ i < bound) : mulLoop val bound i val_tmp = val_tmp := by
  rw [mulLoop, if_neg h]

/-- Over the reals the loop multiplies `val_tmp` by `val` once per remaining
iteration. -/
theorem mulLoop_real (val : ℝ) (bound : Int) :
    ∀ (k : Nat) (i : Int) (val_tmp : ℝ), (bound - i).toNat = k →
      mulLoop val bound i val_tmp = val_tmp * val ^ k := by
  intro k
  induction k with
  | zero =>
      intro i val_tmp hk
      rw [mulLoop_done val bound i val_tmp (by omega)]
      simp
  | succ k ih =>
      intro i val_tmp hk
      rw [mulLoop_step val bound i val_tmp (by omega), ih (i + 1) (val_tmp * val) (by omega)]
      ring

theorem forward_pow_real (g : AutoDiffFunction ℝ) (n : Int) (x : ℝ) :
    forward (.PolynomialFunction g n) x = forward g x ^ n.toNat := by
  simp [forward, mulLoop_real (forward g x) n n.toNat 0 1 (by simp)]

/-- Inside the range of `int` the stored result is the exact one. -/
theorem wrapInt_of_range (n : Int) (hlo : INT_MIN ≤ n) (hhi : n ≤ INT_MAX) : wrapInt n = n := by
  unfold INT_MIN at hlo
  unfold INT_MAX at hhi
  unfold wrapInt
  omega

theorem backward_pow_real (g : AutoDiffFunction ℝ) (n : Int) (x : ℝ)
    (hlo : INT_MIN < n) (hhi : n ≤ INT_MAX) :
    backward (.PolynomialFunction g n) x
      = (n : ℝ) * forward g x ^ (n - 1).toNat * backward g x := by
  have hw : wrapInt (n - 1) = n - 1 := by
    apply wrapInt_of_range
    · unfold INT_MIN at hlo ⊢; omega
    · unfold INT_MAX at hhi ⊢; omega
  simp [backward, hw, mulLoop_real (forward g x) (n - 1) (n - 1).toNat 0 1 (by simp)]

/-- Chain rule, node by node: inside the domain `backward` is the derivative
of `forward`. -/
theorem hasDerivAt_forward (t : AutoDiffFunction ℝ) (x : ℝ) (hw : IntExponents t)
    (h : InDomain t x) : HasDerivAt (fun y => forward t y) (backward t x) x := by
  induction t with
  | IdentityFunction => simpa [forward, backward] using hasDerivAt_id x
  | SinFunction g ih =>
      simpa [forward, backward] using (ih hw h).sin
  | PolynomialFunction g n ih =>
      obtain ⟨hn, hg⟩ := h
      obtain ⟨⟨_, hmax⟩, hwg⟩ := hw
      have hd := (ih hwg hg).pow n.toNat
      have hmin : INT_MIN < n := lt_of_lt_of_le (by decide) hn
      simp only [forward_pow_real, backward_pow_real g n x hmin hmax]
      have e1 : ((n.toNat : ℕ) : ℝ) = (n : ℝ) := by
        rw [← Int.cast_natCast, Int.toNat_of_nonneg hn]
      have e2 : (n - 1).toNat = n.toNat - 1 := by omega
      rw [e2, ← e1]
      exact hd
  | SqrtFunction g ih =>
      obtain ⟨hpos, hg⟩ := h
      have hd := (ih hw hg).sqrt (ne_of_gt hpos)
      simp only [forward, backward, cmath_sqrt_real, Int.cast_one, Int.cast_ofNat]
      convert hd using 1
      ring
  | LogFunction g ih =>
      obtain ⟨hpos, hg⟩ := h
      have hd := (ih hw hg).log (ne_of_gt hpos)
      simp only [forward, backward, cmath_log_real, Int.cast_one]
      convert hd using 1
      ring
  | AddFunction f g ihf ihg =>
      simpa [forward, backward] using (ihf hw.1 h.1).add (ihg hw.2 h.2)
  | DivFunction f g ihf ihg =>
      obtain ⟨hne, hf, hg⟩ := h
      have hd := (ihf hw.1 hf).div (ihg hw.2 hg) hne
      simp only [forward, backward]
      convert hd using 1
      ring
  | ExpFunction g ih =>
      simpa [forward, backward] using (ih hw h).exp
  | ConstFunction c =>
      simpa [forward, backward] using hasDerivAt_const x c

/-! ## Leaves and unary nodes over the reals -/

/-- C6: for every real `x`, `identity().evaluate(x)` is `x` and
`identity().derivative(x)` is `1`. -/
theorem C6_identity (x : ℝ) :
    forward (FunctionFactory.x : AutoDiffFunction ℝ) x = x ∧
    backward (FunctionFactory.x : AutoDiffFunction ℝ) x = 1 := by
  simp [FunctionFactory.x, forward, backward]

/-- C7: for every real `x` and constant `c`, `constant(c).evaluate(x)` is `c`
and `constant(c).derivative(x)` is `0`; the input is ignored. -/
theorem C7_constant (c x : ℝ) :
    forward (FunctionFactory.c c) x = c ∧ backward (FunctionFactory.c c) x = 0 := by
  simp [FunctionFactory.c, forward, backward]

/-- C8: for every child `g` and real `x`, `sin(g).evaluate(x)` is
`sin(g.evaluate(x))` and `sin(g).derivative(x)` is
`cos(g.evaluate(x)) * g.derivative(x)`; in particular
`sin(identity()).derivative(x)` is `cos(x)`. -/
theorem C8_sine (g : AutoDiffFunction ℝ) (x : ℝ) :
    forward (FunctionFactory.sin g) x = Real.sin (forward g x) ∧
    backward (FunctionFactory.sin g) x = Real.cos (forward g x) * backward g x ∧
    backward (FunctionFactory.sin (FunctionFactory.x : AutoDiffFunction ℝ)) x = Real.cos x := by
  simp [FunctionFactory.sin, FunctionFactory.x, forward, backward]

/-- C9: for every child `g` and real `x`, `exp(g).evaluate(x)` is
`e^(g.evaluate(x))` and `exp(g).derivative(x)` is
`exp(g).evaluate(x) * g.derivative(x)`; in particular
`exp(identity()).derivative(x)` is `exp(x)`. -/
theorem C9_exponential (g : AutoDiffFunction ℝ) (x : ℝ) :
    forward (FunctionFactory.exp g) x = Real.exp (forward g x) ∧
    backward (FunctionFactory.exp g) x = forward (FunctionFactory.exp g) x * backward g x ∧
    backward (FunctionFactory.exp (FunctionFactory.x : AutoDiffFunction ℝ)) x = Real.exp x := by
  simp [FunctionFactory.exp, FunctionFactory.x, forward, backward]

/-- C10: for every child `g` and real `x` with `g.evaluate(x) > 0`,
`log(g).evaluate(x)` is `ln(g.evaluate(x))` and `log(g).derivative(x)` is
`g.derivative(x) / g.evaluate(x)`; in particular
`log(identity()).derivative(y)` is `1/y` for every `y > 0`. -/
theorem C10_logarithm (g : AutoDiffFunction ℝ) (x : ℝ) (hg : 0 < forward g x) :
    forward (FunctionFactory.log g) x = Real.log (forward g x) ∧
    backward (FunctionFactory.log g) x = backward g x / forward g x ∧
    ∀ y : ℝ, 0 < y →
      backward (FunctionFactory.log (FunctionFactory.x : AutoDiffFunction ℝ)) y = 1 / y := by
  refine ⟨by simp [FunctionFactory.log, forward], ?_, ?_⟩
  · simp only [FunctionFactory.log, backward, Int.cast_one]
    field_simp
  · intro y _
    simp [FunctionFactory.log, FunctionFactory.x, forward, backward]

/-- C10 at `g = identity()`, `x = 2`, `y = 2`. -/
theorem C10_logarithm_witness :
    0 < forward (FunctionFactory.x : AutoDiffFunction ℝ) 2 ∧
    forward (FunctionFactory.log (FunctionFactory.x : AutoDiffFunction ℝ)) 2
      = Real.log (forward (FunctionFactory.x : AutoDiffFunction ℝ) 2) ∧
    backward (FunctionFactory.log (FunctionFactory.x : AutoDiffFunction ℝ)) 2 = 1 / 2 := by
  have h0 : 0 < forward (FunctionFactory.x : AutoDiffFunction ℝ) 2 := by
    simp [FunctionFactory.x, forward]
  have h := C10_logarithm FunctionFactory.x 2 h0
  exact ⟨h0, h.1, h.2.2 2 (by norm_num)⟩

/-! ## Power -/

/-- C2: for every child `g`, integer `n ≥ 1` (an `int`, so `n ≤ INT_MAX`) and
real `x`, `power(g, n).evaluate(x)` is `g.evaluate(x)^n` and
`power(g, n).derivative(x)` is `n * g.evaluate(x)^(n-1) * g.derivative(x)`; in
particular `power(identity(), n)` evaluates to `x^n` with derivative
`n * x^(n-1)`. -/
theorem C2_power_positive (g : AutoDiffFunction ℝ) (n : Int) (hn : 1 ≤ n)
    (hmax : n ≤ INT_MAX) (x : ℝ) :
    forward (FunctionFactory.pow g n) x = forward g x ^ n ∧
    backward (FunctionFactory.pow g n) x = (n : ℝ) * forward g x ^ (n - 1) * backward g x ∧
    forward (FunctionFactory.pow (FunctionFactory.x : AutoDiffFunction ℝ) n) x = x ^ n ∧
    backward (FunctionFactory.pow (FunctionFactory.x : AutoDiffFunction ℝ) n) x
      = (n : ℝ) * x ^ (n - 1) := by
  have z1 : ∀ v : ℝ, v ^ n = v ^ n.toNat := by
    intro v
    conv_lhs => rw [← Int.toNat_of_nonneg (by omega : (0 : Int) ≤ n)]
    exact zpow_natCast v n.toNat
  have z2 : ∀ v : ℝ, v ^ (n - 1) = v ^ (n - 1).toNat := by
    intro v
    conv_lhs => rw [← Int.toNat_of_nonneg (by omega : (0 : Int) ≤ n - 1)]
    exact zpow_natCast v (n - 1).toNat
  have hmin : INT_MIN < n := lt_of_lt_of_le (by decide) hn
  simp only [FunctionFactory.pow, FunctionFactory.x, forward_pow_real,
    backward_pow_real _ n x hmin hmax, z1, z2]
  simp [forward, backward]

/-- C2 at `g = sin(identity())`, `n = 3`, `x = 2`. -/
theorem C2_power_positive_witness :
    (1 : Int) ≤ 3 ∧ (3 : Int) ≤ INT_MAX ∧
    forward (FunctionFactory.pow (FunctionFactory.sin (FunctionFactory.x : AutoDiffFunction ℝ)) 3) 2
      = forward (FunctionFactory.sin (FunctionFactory.x : AutoDiffFunction ℝ)) 2 ^ (3 : Int) ∧
    forward (FunctionFactory.pow (FunctionFactory.x : AutoDiffFunction ℝ) 3) 2 = 2 ^ (3 : Int) :=
  have h := C2_power_positive (FunctionFactory.sin FunctionFactory.x) 3 (by decide)
    (by decide) 2
  ⟨by decide, by decide, h.1, h.2.2.1⟩

/-! ## Divide -/

/-- C4 (quotient rule): for all `f`, `g` and real `x` with
`g.evaluate(x) ≠ 0`, `divide(f, g).evaluate(x)` is
`f.evaluate(x) / g.evaluate(x)` and `divide(f, g).derivative(x)` is
`(f.derivative(x) * g.evaluate(x) - f.evaluate(x) * g.derivative(x)) / g.evaluate(x)^2`. -/
theorem C4_quotient_rule (f g : AutoDiffFunction ℝ) (x : ℝ) (hg : forward g x ≠ 0) :
    forward (FunctionFactory.div f g) x = forward f x / forward g x ∧
    backward (FunctionFactory.div f g) x
      = (backward f x * forward g x - forward f x * backward g x) / forward g x ^ 2 := by
  refine ⟨by simp [FunctionFactory.div, forward], ?_⟩
  simp only [FunctionFactory.div, backward]
  rw [div_eq_div_iff (mul_self_ne_zero.mpr hg) (pow_ne_zero 2 hg)]
  ring

/-- C4 at `f = identity()`, `g = constant(2)`, `x = 1`. -/
theorem C4_quotient_rule_witness :
    forward (FunctionFactory.c (2 : ℝ)) 1 ≠ 0 ∧
    backward (FunctionFactory.div FunctionFactory.x (FunctionFactory.c (2 : ℝ))) 1
      = (backward (FunctionFactory.x : AutoDiffFunction ℝ) 1 * forward (FunctionFactory.c (2 : ℝ)) 1
          - forward (FunctionFactory.x : AutoDiffFunction ℝ) 1 * backward (FunctionFactory.c (2 : ℝ)) 1)
        / forward (FunctionFactory.c (2 : ℝ)) 1 ^ 2 :=
  have h0 : forward (FunctionFactory.c (2 : ℝ)) 1 ≠ 0 := by simp [FunctionFactory.c, forward]
  ⟨h0, (C4_quotient_rule FunctionFactory.x (FunctionFactory.c 2) 1 h0).2⟩

/-! ## Soundness of the derivative -/

/-- C1: for every tree `t` (its exponents being values of `int`) and real `x`
in the domain of `t`, the function `y ↦ t.evaluate(y)` is differentiable at
`x` and its derivative there is `t.derivative(x)`. -/
theorem C1_derivative_sound (t : AutoDiffFunction ℝ) (x : ℝ) (hw : IntExponents t)
    (h : InDomain t x) :
    DifferentiableAt ℝ (fun y => forward t y) x ∧
    deriv (fun y => forward t y) x = backward t x :=
  ⟨(hasDerivAt_forward t x hw h).differentiableAt, (hasDerivAt_forward t x hw h).deriv⟩

/-- C1 at `t = log(power(identity(), 2))`, `x = 1`. -/
theorem C1_derivative_sound_witness :
    IntExponents (FunctionFactory.log
      (FunctionFactory.pow (FunctionFactory.x : AutoDiffFunction ℝ) 2)) ∧
    InDomain (FunctionFactory.log (FunctionFactory.pow FunctionFactory.x 2)) 1 ∧
    DifferentiableAt ℝ (fun y => forward (FunctionFactory.log
      (FunctionFactory.pow (FunctionFactory.x : AutoDiffFunction ℝ) 2)) y) 1 ∧
    deriv (fun y => forward (FunctionFactory.log
      (FunctionFactory.pow (FunctionFactory.x : AutoDiffFunction ℝ) 2)) y) 1
      = backward (FunctionFactory.log (FunctionFactory.pow FunctionFactory.x 2)) 1 :=
  have hw : IntExponents (FunctionFactory.log
      (FunctionFactory.pow (FunctionFactory.x : AutoDiffFunction ℝ) 2)) := by
    simp only [FunctionFactory.log, FunctionFactory.pow, FunctionFactory.x, IntExponents]
    decide
  have h0 : InDomain (FunctionFactory.log (FunctionFactory.pow FunctionFactory.x 2)) 1 := by
    simp only [FunctionFactory.log, FunctionFactory.pow, FunctionFactory.x, InDomain,
      forward_pow_real]
    simp [forward]
  ⟨hw, h0, C1_derivative_sound _ 1 hw h0⟩

/-! ## The demo expression at `0` -/

/-- C5: for `h = sin(divide(sqrt(add(exp(identity()), power(identity(), 2))),
constant(2.0)))`, `h.evaluate(0)` is `sin(sqrt(1)/2) = sin(0.5)` and
`h.derivative(0)` is `cos(0.5) * 0.25`; on the way the sqrt node has value `1`
and derivative `0.5`, the divide node value `0.5` and derivative `0.25`. -/
theorem C5_demo_at_zero :
    forward (func : AutoDiffFunction ℝ) 0 = Real.sin (Real.sqrt 1 / 2) ∧
    forward (func : AutoDiffFunction ℝ) 0 = Real.sin 0.5 ∧
    backward (func : AutoDiffFunction ℝ) 0 = Real.cos 0.5 * 0.25 ∧
    forward (FunctionFactory.sqrt (FunctionFactory.add (FunctionFactory.exp FunctionFactory.x)
      (FunctionFactory.pow FunctionFactory.x 2)) : AutoDiffFunction ℝ) 0 = 1 ∧
    backward (FunctionFactory.sqrt (FunctionFactory.add (FunctionFactory.exp FunctionFactory.x)
      (FunctionFactory.pow FunctionFactory.x 2)) : AutoDiffFunction ℝ) 0 = 0.5 ∧
    forward (FunctionFactory.div (FunctionFactory.sqrt (FunctionFactory.add
      (FunctionFactory.exp FunctionFactory.x) (FunctionFactory.pow FunctionFactory.x 2)))
      (FunctionFactory.c 2) : AutoDiffFunction ℝ) 0 = 0.5 ∧
    backward (FunctionFactory.div (FunctionFactory.sqrt (FunctionFactory.add
      (FunctionFactory.exp FunctionFactory.x) (FunctionFactory.pow FunctionFactory.x 2)))
      (FunctionFactory.c 2) : AutoDiffFunction ℝ) 0 = 0.25 := by
  have hf : mulLoop (0 : ℝ) 2 0 1 = 0 := by
    rw [mulLoop_real 0 2 2 0 1 (by decide)]; simp
  have hb : mulLoop (0 : ℝ) (wrapInt 1) 0 1 = 0 := by
    rw [mulLoop_real 0 (wrapInt 1) 1 0 1 (by decide)]; simp
  simp only [func, FunctionFactory.sin, FunctionFactory.div, FunctionFactory.sqrt,
    FunctionFactory.add, FunctionFactory.exp, FunctionFactory.pow, FunctionFactory.x,
    FunctionFactory.c]
  refine ⟨?_, ?_, ?_, ?_, ?_, ?_, ?_⟩ <;>
    simp [forward, backward, hf, hb] <;> norm_num

/-! ## Square root and addition -/

/-- C11: for every child `g` and real `x` with `g.evaluate(x) > 0`,
`sqrt(g).evaluate(x)` is `sqrt(g.evaluate(x))` and `sqrt(g).derivative(x)` is
`g.derivative(x) / (2 * sqrt(g.evaluate(x)))`. -/
theorem C11_square_root (g : AutoDiffFunction ℝ) (x : ℝ) (hg : 0 < forward g x) :
    forward (FunctionFactory.sqrt g) x = Real.sqrt (forward g x) ∧
    backward (FunctionFactory.sqrt g) x = backward g x / (2 * Real.sqrt (forward g x)) := by
  have hs : Real.sqrt (forward g x) ≠ 0 := ne_of_gt (Real.sqrt_pos.mpr hg)
  refine ⟨by simp [FunctionFactory.sqrt, forward], ?_⟩
  simp only [FunctionFactory.sqrt, backward, forward, cmath_sqrt_real, Int.cast_one,
    Int.cast_ofNat]
  field_simp

/-- C11 at `g = identity()`, `x = 4`. -/
theorem C11_square_root_witness :
    0 < forward (FunctionFactory.x : AutoDiffFunction ℝ) 4 ∧
    forward (FunctionFactory.sqrt (FunctionFactory.x : AutoDiffFunction ℝ)) 4
      = Real.sqrt (forward (FunctionFactory.x : AutoDiffFunction ℝ) 4) ∧
    backward (FunctionFactory.sqrt (FunctionFactory.x : AutoDiffFunction ℝ)) 4
      = backward (FunctionFactory.x : AutoDiffFunction ℝ) 4
        / (2 * Real.sqrt (forward (FunctionFactory.x : AutoDiffFunction ℝ) 4)) :=
  have h0 : 0 < forward (FunctionFactory.x : AutoDiffFunction ℝ) 4 := by
    simp [FunctionFactory.x, forward]
  ⟨h0, C11_square_root FunctionFactory.x 4 h0⟩

/-- C12: for all `f`, `g` and real `x`, `add(f, g).evaluate(x)` is
`f.evaluate(x) + g.evaluate(x)` and `add(f, g).derivative(x)` is
`f.derivative(x) + g.derivative(x)`. -/
theorem C12_addition (f g : AutoDiffFunction ℝ) (x : ℝ) :
    forward (FunctionFactory.add f g) x = forward f x + forward g x ∧
    backward (FunctionFactory.add f g) x = backward f x + backward g x := by
  simp [FunctionFactory.add, forward, backward]

/-! ## Negative exponents -/

/-- C13: for every child `g`, exponent `n < 0` and real `x`,
`power(g, n).evaluate(x)` is `1`: the loop does not run and no reciprocal is
taken.  It is not `g.evaluate(x)^n`, the two agreeing only where
`g.evaluate(x)^n` happens to be `1`. -/
theorem C13_power_negative_forward (g : AutoDiffFunction ℝ) (n : Int) (hn : n < 0) (x : ℝ) :
    forward (FunctionFactory.pow g n) x = 1 ∧
    (forward (FunctionFactory.pow g n) x = forward g x ^ n ↔ forward g x ^ n = 1) := by
  have h1 : forward (FunctionFactory.pow g n) x = 1 := by
    have ht : n.toNat = 0 := by omega
    simp [FunctionFactory.pow, forward_pow_real, ht]
  exact ⟨h1, by rw [h1]; exact eq_comm⟩

/-- C13 at `g = identity()`, `n = -1`, `x = 2`: the result is `1`, not
`2^(-1)`. -/
theorem C13_power_negative_forward_witness :
    (-1 : Int) < 0 ∧
    forward (FunctionFactory.pow (FunctionFactory.x : AutoDiffFunction ℝ) (-1)) 2 = 1 ∧
    forward (FunctionFactory.pow (FunctionFactory.x : AutoDiffFunction ℝ) (-1)) 2
      ≠ forward (FunctionFactory.x : AutoDiffFunction ℝ) 2 ^ (-1 : Int) := by
  have h := C13_power_negative_forward FunctionFactory.x (-1) (by decide) 2
  refine ⟨by decide, h.1, fun he => ?_⟩
  have h2 := h.2.mp he
  simp only [FunctionFactory.x, forward] at h2
  norm_num at h2

/-- C17: a composite node sees a child only through the child's
`evaluate(x)` and `derivative(x)`.  If `g` and `g'` agree on both at `x`, then
`sin`, `exp`, `log`, `sqrt`, `power` with the same exponent, and `add` and
`divide` on either side give the same `evaluate(x)` and `derivative(x)` with
`g'` in place of `g`.  This holds over every carrier. -/
theorem C17_congruence {α : Type} [Add α] [Sub α] [Mul α] [Div α] [IntCast α] [CMath α]
    (g g' h : AutoDiffFunction α) (n : Int) (x : α)
    (he : forward g x = forward g' x) (hd : backward g x = backward g' x) :
    (forward (FunctionFactory.sin g) x = forward (FunctionFactory.sin g') x ∧
      backward (FunctionFactory.sin g) x = backward (FunctionFactory.sin g') x) ∧
    (forward (FunctionFactory.exp g) x = forward (FunctionFactory.exp g') x ∧
      backward (FunctionFactory.exp g) x = backward (FunctionFactory.exp g') x) ∧
    (forward (FunctionFactory.log g) x = forward (FunctionFactory.log g') x ∧
      backward (FunctionFactory.log g) x = backward (FunctionFactory.log g') x) ∧
    (forward (FunctionFactory.sqrt g) x = forward (FunctionFactory.sqrt g') x ∧
      backward (FunctionFactory.sqrt g) x = backward (FunctionFactory.sqrt g') x) ∧
    (forward (FunctionFactory.pow g n) x = forward (FunctionFactory.pow g' n) x ∧
      backward (FunctionFactory.pow g n) x = backward (FunctionFactory.pow g' n) x) ∧
    (forward (FunctionFactory.add g h) x = forward (FunctionFactory.add g' h) x ∧
      backward (FunctionFactory.add g h) x = backward (FunctionFactory.add g' h) x) ∧
    (forward (FunctionFactory.add h g) x = forward (FunctionFactory.add h g') x ∧
      backward (FunctionFactory.add h g) x = backward (FunctionFactory.add h g') x) ∧
    (forward (FunctionFactory.div g h) x = forward (FunctionFactory.div g' h) x ∧
      backward (FunctionFactory.div g h) x = backward (FunctionFactory.div g' h) x) ∧
    (forward (FunctionFactory.div h g) x = forward (FunctionFactory.div h g') x ∧
      backward (FunctionFactory.div h g) x = backward (FunctionFactory.div h g') x) := by
  simp only [FunctionFactory.sin, FunctionFactory.exp, FunctionFactory.log, FunctionFactory.sqrt,
    FunctionFactory.pow, FunctionFactory.add, FunctionFactory.div, forward, backward, he, hd,
    and_self]

/-- C17 at `g = add(identity(), constant(0))`, `g' = identity()`,
`h = constant(1)`, `n = 2`, `x = 5`, over the reals: two different trees with
the same value and derivative, under `sin` and as a denominator. -/
theorem C17_congruence_witness :
    forward (FunctionFactory.add FunctionFactory.x (FunctionFactory.c (0 : ℝ))) 5
      = forward (FunctionFactory.x : AutoDiffFunction ℝ) 5 ∧
    backward (FunctionFactory.add FunctionFactory.x (FunctionFactory.c (0 : ℝ))) 5
      = backward (FunctionFactory.x : AutoDiffFunction ℝ) 5 ∧
    backward (FunctionFactory.sin
        (FunctionFactory.add FunctionFactory.x (FunctionFactory.c (0 : ℝ)))) 5
      = backward (FunctionFactory.sin (FunctionFactory.x : AutoDiffFunction ℝ)) 5 ∧
    backward (FunctionFactory.div (FunctionFactory.c (1 : ℝ))
        (FunctionFactory.add FunctionFactory.x (FunctionFactory.c (0 : ℝ)))) 5
      = backward (FunctionFactory.div (FunctionFactory.c (1 : ℝ))
        (FunctionFactory.x : AutoDiffFunction ℝ)) 5 := by
  have he : forward (FunctionFactory.add FunctionFactory.x (FunctionFactory.c (0 : ℝ))) 5
      = forward (FunctionFactory.x : AutoDiffFunction ℝ) 5 := by
    simp [FunctionFactory.add, FunctionFactory.x, FunctionFactory.c, forward]
  have hd : backward (FunctionFactory.add FunctionFactory.x (FunctionFactory.c (0 : ℝ))) 5
      = backward (FunctionFactory.x : AutoDiffFunction ℝ) 5 := by
    simp [FunctionFactory.add, FunctionFactory.x, FunctionFactory.c, backward]
  have h := C17_congruence (FunctionFactory.add FunctionFactory.x (FunctionFactory.c (0 : ℝ)))
    FunctionFactory.x (FunctionFactory.c (1 : ℝ)) 2 5 he hd
  exact ⟨he, hd, h.1.2, h.2.2.2.2.2.2.2.2.2⟩

/-- Without an `IdentityFunction` leaf the argument is never read. -/
theorem forward_const_of_no_identity (t : AutoDiffFunction ℝ) (h : hasIdentity t = false)
    (x y : ℝ) : forward t x = forward t y := by
  induction t with
  | IdentityFunction => simp [hasIdentity] at h
  | SinFunction g ih => simp only [forward, ih h]
  | PolynomialFunction g n ih => simp only [forward, ih h]
  | SqrtFunction g ih => simp only [forward, ih h]
  | LogFunction g ih => simp only [forward, ih h]
  | AddFunction f g ihf ihg =>
      simp only [hasIdentity, Bool.or_eq_false_iff] at h
      simp only [forward, ihf h.1, ihg h.2]
  | DivFunction f g ihf ihg =>
      simp only [hasIdentity, Bool.or_eq_false_iff] at h
      simp only [forward, ihf h.1, ihg h.2]
  | ExpFunction g ih => simp only [forward, ih h]
  | ConstFunction c => simp only [forward]

/-- Without an `IdentityFunction` leaf every rule multiplies or adds zero
derivatives. -/
theorem backward_zero_of_no_identity (t : AutoDiffFunction ℝ) (h : hasIdentity t = false)
    (x : ℝ) : backward t x = 0 := by
  induction t with
  | IdentityFunction => simp [hasIdentity] at h
  | SinFunction g ih => simp [backward, ih h]
  | PolynomialFunction g n ih => simp [backward, ih h]
  | SqrtFunction g ih => simp [backward, ih h]
  | LogFunction g ih => simp [backward, ih h]
  | AddFunction f g ihf ihg =>
      simp only [hasIdentity, Bool.or_eq_false_iff] at h
      simp [backward, ihf h.1, ihg h.2]
  | DivFunction f g ihf ihg =>
      simp only [hasIdentity, Bool.or_eq_false_iff] at h
      simp [backward, ihf h.1, ihg h.2]
  | ExpFunction g ih => simp [backward, ih h]
  | ConstFunction c => simp [backward]

/-- C19: a tree without an `IdentityFunction` leaf is a constant function with
zero derivative: `t.evaluate(x) = t.evaluate(y)` for all `x`, `y`, and
`t.derivative(x) = 0` at every `x` in the domain of `t` (every square-root and
logarithm argument positive, every denominator non-zero). -/
theorem C19_no_identity_constant (t : AutoDiffFunction ℝ) (h : hasIdentity t = false) :
    (∀ x y : ℝ, forward t x = forward t y) ∧
    (∀ x : ℝ, ArgsInDomain t x → backward t x = 0) :=
  ⟨forward_const_of_no_identity t h, fun x _ => backward_zero_of_no_identity t h x⟩

/-- C19 at `t = divide(constant(1), sqrt(constant(4)))`, `x = 0`, `y = 1`. -/
theorem C19_no_identity_constant_witness :
    hasIdentity (FunctionFactory.div (FunctionFactory.c (1 : ℝ))
      (FunctionFactory.sqrt (FunctionFactory.c (4 : ℝ)))) = false ∧
    ArgsInDomain (FunctionFactory.div (FunctionFactory.c (1 : ℝ))
      (FunctionFactory.sqrt (FunctionFactory.c (4 : ℝ)))) 0 ∧
    forward (FunctionFactory.div (FunctionFactory.c (1 : ℝ))
      (FunctionFactory.sqrt (FunctionFactory.c (4 : ℝ)))) 0
      = forward (FunctionFactory.div (FunctionFactory.c (1 : ℝ))
        (FunctionFactory.sqrt (FunctionFactory.c (4 : ℝ)))) 1 ∧
    backward (FunctionFactory.div (FunctionFactory.c (1 : ℝ))
      (FunctionFactory.sqrt (FunctionFactory.c (4 : ℝ)))) 0 = 0 := by
  have h0 : hasIdentity (FunctionFactory.div (FunctionFactory.c (1 : ℝ))
      (FunctionFactory.sqrt (FunctionFactory.c (4 : ℝ)))) = false := rfl
  have hd : ArgsInDomain (FunctionFactory.div (FunctionFactory.c (1 : ℝ))
      (FunctionFactory.sqrt (FunctionFactory.c (4 : ℝ)))) 0 := by
    simp [FunctionFactory.div, FunctionFactory.c, FunctionFactory.sqrt, ArgsInDomain, forward]
  have h := C19_no_identity_constant _ h0
  exact ⟨h0, hd, h.1 0 1, h.2 0 hd⟩

/-! ## The demo expression at every point -/

/-- The value of the demo expression, node by node. -/
theorem forward_func_real (x : ℝ) :
    forward (func : AutoDiffFunction ℝ) x = Real.sin (Real.sqrt (Real.exp x + x ^ 2) / 2) := by
  simp only [func, FunctionFactory.sin, FunctionFactory.div, FunctionFactory.sqrt,
    FunctionFactory.add, FunctionFactory.exp, FunctionFactory.pow, FunctionFactory.x,
    FunctionFactory.c]
  have hp : forward (.PolynomialFunction .IdentityFunction 2 : AutoDiffFunction ℝ) x = x ^ 2 := by
    rw [forward_pow_real]; simp [forward]
  simp only [forward] at hp ⊢
  rw [hp]
  simp

/-- The argument of the square root in the demo expression is positive. -/
theorem demo_radicand_pos (x : ℝ) : 0 < Real.exp x + x ^ 2 :=
  add_pos_of_pos_of_nonneg (Real.exp_pos x) (sq_nonneg x)

/-- The demo expression is in its domain everywhere. -/
theorem inDomain_func (x : ℝ) : InDomain (func : AutoDiffFunction ℝ) x := by
  have hp : forward (.PolynomialFunction .IdentityFunction 2 : AutoDiffFunction ℝ) x = x ^ 2 := by
    rw [forward_pow_real]; simp [forward]
  have hpos := demo_radicand_pos x
  simp only [func, FunctionFactory.sin, FunctionFactory.div, FunctionFactory.sqrt,
    FunctionFactory.add, FunctionFactory.exp, FunctionFactory.pow, FunctionFactory.x,
    FunctionFactory.c, InDomain]
  simp only [forward] at hp ⊢
  rw [hp]
  refine ⟨by norm_num, ⟨?_, trivial, by decide, trivial⟩, trivial⟩
  simpa using hpos

/-- The exponent of the demo expression is an `int`. -/
theorem intExponents_func : IntExponents (func : AutoDiffFunction ℝ) := by
  simp only [func, FunctionFactory.sin, FunctionFactory.div, FunctionFactory.sqrt,
    FunctionFactory.add, FunctionFactory.exp, FunctionFactory.pow, FunctionFactory.x,
    FunctionFactory.c, IntExponents]
  decide

/-- The derivative computed for the demo expression, node by node. -/
theorem backward_func_real (x : ℝ) :
    backward (func : AutoDiffFunction ℝ) x
      = Real.cos (Real.sqrt (Real.exp x + x ^ 2) / 2) * (Real.exp x + 2 * x)
        / (4 * Real.sqrt (Real.exp x + x ^ 2)) := by
  have hs : Real.sqrt (Real.exp x + x ^ 2) ≠ 0 :=
    ne_of_gt (Real.sqrt_pos.mpr (demo_radicand_pos x))
  have hm2 : mulLoop x 2 0 (1 : ℝ) = x ^ 2 := by
    rw [mulLoop_real x 2 2 0 1 (by decide)]; simp
  have hm1 : mulLoop x (wrapInt (2 - 1)) 0 (1 : ℝ) = x := by
    rw [mulLoop_real x (wrapInt (2 - 1)) 1 0 1 (by decide)]; simp
  simp only [func, FunctionFactory.sin, FunctionFactory.div, FunctionFactory.sqrt,
    FunctionFactory.add, FunctionFactory.exp, FunctionFactory.pow, FunctionFactory.x,
    FunctionFactory.c]
  simp only [forward, backward, cmath_exp_real, cmath_sqrt_real, cmath_cos_real, Int.cast_one,
    Int.cast_ofNat, Int.cast_zero, hm2, hm1]
  field_simp
  ring

/-- C20: the demo expression is in its domain at every real `x`
(`e^x + x^2 > 0`, denominator `2`), `h.evaluate(x)` is
`sin(sqrt(e^x + x^2) / 2)`, and `h.derivative(x)` is the derivative of that
function at `x`, `cos(sqrt(e^x + x^2) / 2) * (e^x + 2x) / (4 * sqrt(e^x + x^2))`. -/
theorem C20_demo_everywhere (x : ℝ) :
    InDomain (func : AutoDiffFunction ℝ) x ∧
    0 < Real.exp x + x ^ 2 ∧
    forward (func : AutoDiffFunction ℝ) x = Real.sin (Real.sqrt (Real.exp x + x ^ 2) / 2) ∧
    backward (func : AutoDiffFunction ℝ) x
      = Real.cos (Real.sqrt (Real.exp x + x ^ 2) / 2) * (Real.exp x + 2 * x)
        / (4 * Real.sqrt (Real.exp x + x ^ 2)) ∧
    HasDerivAt (fun y : ℝ => Real.sin (Real.sqrt (Real.exp y + y ^ 2) / 2))
      (backward (func : AutoDiffFunction ℝ) x) x := by
  refine ⟨inDomain_func x, demo_radicand_pos x, forward_func_real x, backward_func_real x, ?_⟩
  have hd := hasDerivAt_forward func x intExponents_func (inDomain_func x)
  have hfun : (fun y : ℝ => forward (func : AutoDiffFunction ℝ) y)
      = fun y : ℝ => Real.sin (Real.sqrt (Real.exp y + y ^ 2) / 2) :=
    funext forward_func_real
  rw [hfun] at hd
  exact hd

end RealCarrier

/-! ## The program over floats with special values -/

section SpecialValues

theorem xfloat_mul_def (a b : XFloat) : a * b = XFloat.mul a b := rfl
theorem xfloat_div_def (a b : XFloat) : a / b = XFloat.div a b := rfl
theorem xfloat_intCast_def (n : Int) : ((n : Int) : XFloat) = XFloat.fin (n : ℝ) := rfl
theorem cmath_log_xfloat (a : XFloat) : CMath.log a = XFloat.log a := rfl

/-- Multiplying `+0` by a finite float gives a zero. -/
theorem xfloat_zero_mul_finite (a : XFloat) (h : a.isFinite = true) :
    (XFloat.mul (XFloat.fin 0) a).isZero = true := by
  cases a with
  | fin r =>
      by_cases hr : r < 0 <;>
        simp [XFloat.mul, XFloat.isNaN, XFloat.isInf, XFloat.val, XFloat.sign, XFloat.signed,
          XFloat.zero, XFloat.isZero, hr]
  | negZero =>
      simp [XFloat.mul, XFloat.isNaN, XFloat.isInf, XFloat.val, XFloat.sign, XFloat.signed,
        XFloat.zero, XFloat.isZero]
  | posInf => simp [XFloat.isFinite] at h
  | negInf => simp [XFloat.isFinite] at h
  | nan => simp [XFloat.isFinite] at h

/-- The product `0 * 1.0f` computed first in `PolynomialFunction::backward`
at exponent `0`. -/
theorem xfloat_zero_mul_one : XFloat.mul (XFloat.fin 0) (XFloat.fin 1) = XFloat.fin 0 := by
  simp [XFloat.mul, XFloat.isNaN, XFloat.isInf, XFloat.val, XFloat.sign, XFloat.signed,
    XFloat.zero]

/-- The quotient `1.0f / 0.0f`. -/
theorem xfloat_one_div_zero : XFloat.div (XFloat.fin 1) (XFloat.fin 0) = XFloat.posInf := by
  have h : ¬ (1 : ℝ) < 0 := by norm_num
  simp [XFloat.div, XFloat.isNaN, XFloat.isInf, XFloat.isZero, XFloat.sign, XFloat.inf, h]

/-- The product `+∞ * 1.0f`. -/
theorem xfloat_inf_mul_one : XFloat.mul XFloat.posInf (XFloat.fin 1) = XFloat.posInf := by
  have h : ¬ (1 : ℝ) < 0 := by norm_num
  simp [XFloat.mul, XFloat.isNaN, XFloat.isInf, XFloat.isZero, XFloat.sign, XFloat.inf, h]

/-- The product `0 * +∞`. -/
theorem xfloat_zero_mul_inf : XFloat.mul (XFloat.fin 0) XFloat.posInf = XFloat.nan := by
  simp [XFloat.mul, XFloat.isNaN, XFloat.isInf, XFloat.isZero]

/-- C3, refuted as stated: at `g = log(identity())` and `x = 0` the child's
derivative is `(1.0f / 0.0f) * 1.0f = +∞`, and `power(g, 0).derivative(0)` is
`0 * 1.0f * +∞`, which is NaN and not `0`. -/
theorem C3_power_zero_counterexample :
    backward (FunctionFactory.log (FunctionFactory.x : AutoDiffFunction XFloat)) (XFloat.fin 0)
      = XFloat.posInf ∧
    backward (FunctionFactory.pow (FunctionFactory.log (FunctionFactory.x : AutoDiffFunction XFloat)) 0)
      (XFloat.fin 0) = XFloat.nan ∧
    (backward (FunctionFactory.pow (FunctionFactory.log (FunctionFactory.x : AutoDiffFunction XFloat)) 0)
      (XFloat.fin 0)).isZero = false := by
  have hlog : backward (FunctionFactory.log (FunctionFactory.x : AutoDiffFunction XFloat))
      (XFloat.fin 0) = XFloat.posInf := by
    simp only [FunctionFactory.log, FunctionFactory.x, backward, forward, xfloat_intCast_def,
      xfloat_mul_def, xfloat_div_def, Int.cast_one, xfloat_one_div_zero, xfloat_inf_mul_one]
  have hpow : backward (FunctionFactory.pow (FunctionFactory.log
      (FunctionFactory.x : AutoDiffFunction XFloat)) 0) (XFloat.fin 0) = XFloat.nan := by
    have h := hlog
    simp only [FunctionFactory.log, FunctionFactory.x, FunctionFactory.pow] at h ⊢
    rw [backward, h, mulLoop_done _ _ _ _ (by decide)]
    simp only [xfloat_intCast_def, xfloat_mul_def, Int.cast_zero, Int.cast_one,
      xfloat_zero_mul_one, xfloat_zero_mul_inf]
  exact ⟨hlog, hpow, by rw [hpow]; rfl⟩

/-- C3, amended: for every child `g` and every float `x`,
`power(g, 0).evaluate(x)` is `1` whatever the child's value (NaN and the
infinities included), and `power(g, 0).derivative(x)` is zero whenever
`g.derivative(x)` is finite. -/
theorem C3_power_zero (g : AutoDiffFunction XFloat) (x : XFloat) :
    forward (FunctionFactory.pow g 0) x = XFloat.fin 1 ∧
    ((backward g x).isFinite = true → (backward (FunctionFactory.pow g 0) x).isZero = true) := by
  constructor
  · simp only [FunctionFactory.pow, forward]
    rw [mulLoop_done _ _ _ _ (by decide), xfloat_intCast_def]
    simp
  · intro h
    simp only [FunctionFactory.pow, backward]
    rw [mulLoop_done _ _ _ _ (by decide), xfloat_intCast_def, xfloat_intCast_def,
      xfloat_mul_def, xfloat_mul_def]
    simp only [Int.cast_zero, Int.cast_one, xfloat_zero_mul_one]
    exact xfloat_zero_mul_finite _ h

/-- C3 (amended) at `g = identity()`, `x = 3`. -/
theorem C3_power_zero_witness :
    (backward (FunctionFactory.x : AutoDiffFunction XFloat) (XFloat.fin 3)).isFinite = true ∧
    forward (FunctionFactory.pow (FunctionFactory.x : AutoDiffFunction XFloat) 0) (XFloat.fin 3)
      = XFloat.fin 1 ∧
    (backward (FunctionFactory.pow (FunctionFactory.x : AutoDiffFunction XFloat) 0)
      (XFloat.fin 3)).isZero = true :=
  have h0 : (backward (FunctionFactory.x : AutoDiffFunction XFloat) (XFloat.fin 3)).isFinite
      = true := rfl
  ⟨h0, (C3_power_zero FunctionFactory.x (XFloat.fin 3)).1,
    (C3_power_zero FunctionFactory.x (XFloat.fin 3)).2 h0⟩

end SpecialValues

/-! ## Termination and the absence of state -/

section StepwiseFacts

/-- The loop is left after one guard test per remaining iteration plus the
failing one, with the result of `mulLoop`. -/
theorem loopRun_eq {α : Type} [Mul α] (val : α) (bound : Int) :
    ∀ (k : Nat) (i : Int) (val_tmp : α), (bound - i).toNat = k →
      loopRun val bound (k + 1) (i, val_tmp) = some (mulLoop val bound i val_tmp) := by
  intro k
  induction k with
  | zero =>
      intro i val_tmp hk
      have hg : ¬ i < bound := by omega
      simp [loopRun, loopStep, hg, mulLoop_done val bound i val_tmp hg]
  | succ k ih =>
      intro i val_tmp hk
      have hg : i < bound := by omega
      rw [loopRun]
      simp only [loopStep, hg, if_true]
      rw [ih (i + 1) (val_tmp * val) (by omega), mulLoop_step val bound i val_tmp hg]

/-- A `forward` call within a budget above the depth of the tree returns the
value of `forward` and leaves the tree as it was. -/
theorem forwardS_eq {α : Type} [Add α] [Mul α] [Div α] [IntCast α] [CMath α] :
    ∀ (fuel : Nat) (t : AutoDiffFunction α) (x : α), depth t < fuel →
      forwardS fuel t x = some (forward t x, t) := by
  intro fuel
  induction fuel with
  | zero => intro t x h; omega
  | succ fuel ih =>
      intro t x h
      cases t with
      | IdentityFunction => simp [forwardS, forward]
      | SinFunction g =>
          simp only [depth] at h
          simp [forwardS, forward, ih g x (by omega)]
      | PolynomialFunction g n =>
          simp only [depth] at h
          simp [forwardS, forward, ih g x (by omega)]
      | SqrtFunction g =>
          simp only [depth] at h
          simp [forwardS, forward, ih g x (by omega)]
      | LogFunction g =>
          simp only [depth] at h
          simp [forwardS, forward, ih g x (by omega)]
      | AddFunction f g =>
          simp only [depth] at h
          simp [forwardS, forward, ih f x (by omega), ih g x (by omega)]
      | DivFunction f g =>
          simp only [depth] at h
          simp [forwardS, forward, ih f x (by omega), ih g x (by omega)]
      | ExpFunction g =>
          simp only [depth] at h
          simp [forwardS, forward, ih g x (by omega)]
      | ConstFunction c => simp [forwardS, forward]

/-- A `backward` call within a budget above the depth of the tree returns the
value of `backward` and leaves the tree as it was. -/
theorem backwardS_eq {α : Type} [Add α] [Sub α] [Mul α] [Div α] [IntCast α] [CMath α] :
    ∀ (fuel : Nat) (t : AutoDiffFunction α) (x : α), depth t < fuel →
      backwardS fuel t x = some (backward t x, t) := by
  intro fuel
  induction fuel with
  | zero => intro t x h; omega
  | succ fuel ih =>
      intro t x h
      cases t with
      | IdentityFunction => simp [backwardS, backward]
      | SinFunction g =>
          simp only [depth] at h
          simp [backwardS, backward, forwardS_eq fuel g x (by omega), ih g x (by omega)]
      | PolynomialFunction g n =>
          simp only [depth] at h
          simp [backwardS, backward, forwardS_eq fuel g x (by omega), ih g x (by omega)]
      | SqrtFunction g =>
          simp only [depth] at h
          simp [backwardS, backward, forward, forwardS_eq fuel g x (by omega), ih g x (by omega)]
      | LogFunction g =>
          simp only [depth] at h
          simp [backwardS, backward, forwardS_eq fuel g x (by omega), ih g x (by omega)]
      | AddFunction f g =>
          simp only [depth] at h
          simp [backwardS, backward, ih f x (by omega), ih g x (by omega)]
      | DivFunction f g =>
          simp only [depth] at h
          simp [backwardS, backward, forwardS_eq fuel f x (by omega),
            forwardS_eq fuel g x (by omega), ih f x (by omega), ih g x (by omega)]
      | ExpFunction g =>
          simp only [depth] at h
          simp [backwardS, backward, forward, forwardS_eq fuel g x (by omega), ih g x (by omega)]
      | ConstFunction c => simp [backwardS, backward]

/-- C16: no hidden state.  Whatever sequence of `evaluate` and `derivative`
calls is made on a tree `t`, every call returns what the same call returns on
the tree as built (so two calls with the same `x` agree wherever they stand in
the sequence), and the tree at the end is `t`, no field changed. -/
theorem C16_no_hidden_state {α : Type} [Add α] [Sub α] [Mul α] [Div α] [IntCast α] [CMath α]
    (fuel : Nat) (t : AutoDiffFunction α) (cs : List (Call α)) (h : depth t < fuel) :
    runCalls fuel t cs = some (cs.map (Call.result t), t) := by
  induction cs with
  | nil => simp [runCalls]
  | cons c cs ih =>
      cases c with
      | evaluate x => simp [runCalls, forwardS_eq fuel t x h, ih, Call.result]
      | derivative x => simp [runCalls, backwardS_eq fuel t x h, ih, Call.result]

end StepwiseFacts

/-- C16 at `t = sin(identity())` over the reals and the calls `evaluate(1)`,
`derivative(1)`, `evaluate(2)`, `evaluate(1)`. -/
theorem C16_no_hidden_state_witness :
    depth (FunctionFactory.sin (FunctionFactory.x : AutoDiffFunction ℝ)) < 2 ∧
    runCalls 2 (FunctionFactory.sin (FunctionFactory.x : AutoDiffFunction ℝ))
        [Call.evaluate 1, Call.derivative 1, Call.evaluate 2, Call.evaluate 1]
      = some ([Call.evaluate 1, Call.derivative 1, Call.evaluate 2, Call.evaluate 1].map
          (Call.result (FunctionFactory.sin (FunctionFactory.x : AutoDiffFunction ℝ))),
        FunctionFactory.sin FunctionFactory.x) :=
  have h0 : depth (FunctionFactory.sin (FunctionFactory.x : AutoDiffFunction ℝ)) < 2 := by
    decide
  ⟨h0, C16_no_hidden_state 2 _ _ h0⟩

section NonFinite

theorem cmath_sqrt_xfloat (a : XFloat) : CMath.sqrt a = XFloat.sqrt a := rfl

/-- C15: `log(identity()).evaluate(x)` at `x ≤ 0` is a non-finite value, not
an error: `-∞` at `x = 0` (either zero) and NaN for `x < 0`. -/
theorem C15_log_nonpositive (r : ℝ) (h : r ≤ 0) :
    (forward (FunctionFactory.log (FunctionFactory.x : AutoDiffFunction XFloat))
      (XFloat.fin r)).isFinite = false ∧
    forward (FunctionFactory.log (FunctionFactory.x : AutoDiffFunction XFloat)) (XFloat.fin 0)
      = XFloat.negInf ∧
    forward (FunctionFactory.log (FunctionFactory.x : AutoDiffFunction XFloat)) XFloat.negZero
      = XFloat.negInf ∧
    (r < 0 → forward (FunctionFactory.log (FunctionFactory.x : AutoDiffFunction XFloat))
      (XFloat.fin r) = XFloat.nan) := by
  simp only [FunctionFactory.log, FunctionFactory.x, forward, cmath_log_xfloat]
  refine ⟨?_, by simp [XFloat.log], by simp [XFloat.log], ?_⟩
  · rcases lt_or_eq_of_le h with hlt | heq
    · simp [XFloat.log, hlt, XFloat.isFinite]
    · simp [XFloat.log, heq, XFloat.isFinite]
  · intro hlt
    simp [XFloat.log, hlt]

/-- C15 at `x = -1`. -/
theorem C15_log_nonpositive_witness :
    (-1 : ℝ) ≤ 0 ∧ (-1 : ℝ) < 0 ∧
    forward (FunctionFactory.log (FunctionFactory.x : AutoDiffFunction XFloat))
      (XFloat.fin (-1)) = XFloat.nan :=
  ⟨by norm_num, by norm_num, (C15_log_nonpositive (-1) (by norm_num)).2.2.2 (by norm_num)⟩

/-- C14: every call terminates with a value and there is no failure branch.
For every tree `t` and float `x` (special values included), `evaluate` and
`derivative` return within a call depth of `depth t + 1`; the multiplication
loop is left after at most `bound + 1` guard tests, at once for a zero or
negative bound; and an out-of-domain operation yields a value: the square root
and the logarithm of `-1` are NaN, `1 / 0` is `+∞`, and `power` with exponent
`0` or `-3` evaluates to `1`. -/
theorem C14_total (t : AutoDiffFunction XFloat) (x : XFloat) :
    forwardS (depth t + 1) t x = some (forward t x, t) ∧
    backwardS (depth t + 1) t x = some (backward t x, t) ∧
    (∀ (val val_tmp : XFloat) (bound : Int),
      loopRun val bound (bound.toNat + 1) (0, val_tmp) = some (mulLoop val bound 0 val_tmp)) ∧
    (∀ (val val_tmp : XFloat) (bound : Int), bound ≤ 0 →
      loopRun val bound 1 (0, val_tmp) = some val_tmp) ∧
    forward (FunctionFactory.sqrt (FunctionFactory.x : AutoDiffFunction XFloat))
      (XFloat.fin (-1)) = XFloat.nan ∧
    forward (FunctionFactory.log (FunctionFactory.x : AutoDiffFunction XFloat))
      (XFloat.fin (-1)) = XFloat.nan ∧
    forward (FunctionFactory.div (FunctionFactory.c (XFloat.fin 1)) FunctionFactory.x)
      (XFloat.fin 0) = XFloat.posInf ∧
    forward (FunctionFactory.pow t 0) x = XFloat.fin 1 ∧
    forward (FunctionFactory.pow t (-3)) x = XFloat.fin 1 := by
  refine ⟨forwardS_eq _ t x (Nat.lt_succ_self _), backwardS_eq _ t x (Nat.lt_succ_self _),
    fun val val_tmp bound => loopRun_eq val bound bound.toNat 0 val_tmp (by simp), ?_, ?_, ?_, ?_,
    ?_, ?_⟩
  · intro val val_tmp bound hb
    have hz : (bound - 0).toNat = 0 := by omega
    rw [loopRun_eq val bound 0 0 val_tmp hz, mulLoop_done val bound 0 val_tmp (by omega)]
  · have hneg : (-1 : ℝ) < 0 := by norm_num
    simp [FunctionFactory.sqrt, FunctionFactory.x, forward, cmath_sqrt_xfloat, XFloat.sqrt, hneg]
  · have hneg : (-1 : ℝ) < 0 := by norm_num
    simp [FunctionFactory.log, FunctionFactory.x, forward, cmath_log_xfloat, XFloat.log, hneg]
  · simp only [FunctionFactory.div, FunctionFactory.c, FunctionFactory.x, forward,
      xfloat_div_def, xfloat_one_div_zero]
  · simp only [FunctionFactory.pow, forward]
    rw [mulLoop_done _ _ _ _ (by decide), xfloat_intCast_def]
    simp
  · simp only [FunctionFactory.pow, forward]
    rw [mulLoop_done _ _ _ _ (by decide), xfloat_intCast_def]
    simp

end NonFinite

end AutoDiff
